import Mathlib

/-!
Verification development for the NS MCP server (Dutch railway data tools over
the Model Context Protocol).

The embedding covers:
- the JSON value model shared by argument bags, query parameters and payloads;
- the pretty-printing JSON serializer and a whitespace-tolerant JSON reader,
  modelling the JavaScript builtins used by the response formatter;
- the response formatter (success and error envelopes) and the per-tool
  argument validators, modelled from the specification since their source
  module is not part of the embedded sources;
- the upstream API client (NSApiService), translated from
  src/services/NSApiService.ts, with network effects represented as an
  oracle plus an explicit trace of issued calls;
- the call-tool dispatcher of the HTTP server entry point;
- the session-managed HTTP route (POST, GET, DELETE on the MCP endpoint)
  as a step function on the session map.
-/

namespace NS

/-- A JSON value. Numbers are modelled as integers: every numeric value the
tools exchange (counts, flags, bounds) is integral, and the upstream payloads
are treated opaquely. -/
inductive Json where
  | null
  | bool (b : Bool)
  | num (k : Int)
  | str (s : String)
  | arr (xs : List Json)
  | obj (fs : List (String × Json))

/-- A raw untyped argument bag: field name to JSON value, as delivered by the
protocol layer for one tool invocation. -/
def Bag := List (String × Json)

/-- First-match field access on a bag, mirroring JavaScript property access. -/
def bagGet : Bag → String → Option Json
  | [], _ => none
  | (k0, v0) :: rest, k => if k0 = k then some v0 else bagGet rest k

/-- Replace the value of a field, or append it when absent. -/
def bagSet : Bag → String → Json → Bag
  | [], k, v => [(k, v)]
  | (k0, v0) :: rest, k, v =>
      if k0 = k then (k, v) :: rest else (k0, v0) :: bagSet rest k v

theorem bagGet_bagSet (b : Bag) (k k2 : String) (v : Json) :
    bagGet (bagSet b k v) k2 = if k = k2 then some v else bagGet b k2 := by
  induction b with
  | nil =>
      by_cases h : k = k2 <;> simp [bagSet, bagGet, h]
  | cons p rest ih =>
      obtain ⟨k0, v0⟩ := p
      by_cases h0 : k0 = k
      · subst h0
        by_cases h : k0 = k2 <;> simp [bagSet, bagGet, h]
      · by_cases h02 : k0 = k2
        · subst h02
          have hne : ¬k = k0 := fun hh => h0 hh.symm
          simp [bagSet, bagGet, h0, hne]
        · simp [bagSet, bagGet, h0, h02, ih]

/-! ### Field checks used by the argument validators

Each check inspects a single field value (the result of a bag lookup), so a
validator is a conjunction of per-field checks, as the specification states. -/

/-- A required field: present and a string. -/
def reqStrV : Option Json → Bool
  | some (Json.str _) => true
  | _ => false

/-- An optional field: absent, or present as a string. -/
def optStrV : Option Json → Bool
  | none => true
  | some (Json.str _) => true
  | _ => false

/-- An optional field: absent, or present as a boolean. -/
def optBoolV : Option Json → Bool
  | none => true
  | some (Json.bool _) => true
  | _ => false

/-- An optional field: absent, or a number within the given inclusive range. -/
def optIntRangeV (lo hi : Int) : Option Json → Bool
  | none => true
  | some (Json.num k) => decide (lo ≤ k) && decide (k ≤ hi)
  | _ => false

/-- An optional field: absent, or a number at least the given minimum. -/
def optIntMinV (lo : Int) : Option Json → Bool
  | none => true
  | some (Json.num k) => decide (lo ≤ k)
  | _ => false

/-- An optional field: absent, or a string drawn from the enumerated set. -/
def optEnumV (allowed : List String) : Option Json → Bool
  | none => true
  | some (Json.str s) => allowed.contains s
  | _ => false

/-! ### Argument validators

Modelled from the spec: the validator module (src/types.ts) is not among the
embedded sources; these predicates follow section 4.2 (one pure predicate per
tool, a conjunction of per-field presence, primitive-type, enumerated-set and
at-least-one-of rules), the tool catalog of section 6 (field lists, enumerated
sets and numeric bounds) and the explicit validator test points of section 8. -/

/-- Modelled from the spec: validator for get_disruptions (optional isActive
boolean, optional type in MAINTENANCE or DISRUPTION). -/
def isValidDisruptionsArgs (b : Bag) : Bool :=
  optBoolV (bagGet b "isActive") &&
  optEnumV ["MAINTENANCE", "DISRUPTION"] (bagGet b "type")

/-- Modelled from the spec: validator for get_travel_advice (required
fromStation and toStation strings, optional dateTime string, optional
searchForArrival boolean). -/
def isValidTravelAdviceArgs (b : Bag) : Bool :=
  reqStrV (bagGet b "fromStation") &&
  reqStrV (bagGet b "toStation") &&
  optStrV (bagGet b "dateTime") &&
  optBoolV (bagGet b "searchForArrival")

/-- Modelled from the spec: validator for get_departures (at least one of
station or uicCode present as a string, optional dateTime string, optional
maxJourneys number in 1..100, optional lang in nl or en). -/
def isValidDeparturesArgs (b : Bag) : Bool :=
  (reqStrV (bagGet b "station") || reqStrV (bagGet b "uicCode")) &&
  optStrV (bagGet b "dateTime") &&
  optIntRangeV 1 100 (bagGet b "maxJourneys") &&
  optEnumV ["nl", "en"] (bagGet b "lang")

/-- Modelled from the spec: validator for get_arrivals, with the same rules as
get_departures. -/
def isValidArrivalsArgs (b : Bag) : Bool :=
  (reqStrV (bagGet b "station") || reqStrV (bagGet b "uicCode")) &&
  optStrV (bagGet b "dateTime") &&
  optIntRangeV 1 100 (bagGet b "maxJourneys") &&
  optEnumV ["nl", "en"] (bagGet b "lang")

/-- Modelled from the spec: validator for get_ovfiets (required stationCode
string). -/
def isValidOVFietsArgs (b : Bag) : Bool :=
  reqStrV (bagGet b "stationCode")

/-- Modelled from the spec: validator for get_station_info (required query
string, optional includeNonPlannableStations boolean, optional limit number in
1..50). -/
def isValidStationInfoArgs (b : Bag) : Bool :=
  reqStrV (bagGet b "query") &&
  optBoolV (bagGet b "includeNonPlannableStations") &&
  optIntRangeV 1 50 (bagGet b "limit")

/-- Modelled from the spec: validator for get_prices (required fromStation and
toStation strings; optional travelClass and travelType enumerations, joint
journey boolean, adults at least 1, children at least 0, and three optional
strings). -/
def isValidPricesArgs (b : Bag) : Bool :=
  reqStrV (bagGet b "fromStation") &&
  reqStrV (bagGet b "toStation") &&
  optEnumV ["FIRST_CLASS", "SECOND_CLASS"] (bagGet b "travelClass") &&
  optEnumV ["single", "return"] (bagGet b "travelType") &&
  optBoolV (bagGet b "isJointJourney") &&
  optIntMinV 1 (bagGet b "adults") &&
  optIntMinV 0 (bagGet b "children") &&
  optStrV (bagGet b "routeId") &&
  optStrV (bagGet b "plannedDepartureTime") &&
  optStrV (bagGet b "plannedArrivalTime")

/-! ### JSON serialization

Models the JavaScript call JSON.stringify(data, null, 2) used by the success
formatter: two-space indentation, a newline before every array element and
object member, the closing bracket on its own line at the enclosing indent,
and empty arrays and objects rendered with no inner whitespace. -/

/-- The character for a decimal digit below ten. -/
def digitToChar (d : Nat) : Char := Char.ofNat (48 + d)

/-- The lowercase hexadecimal digit character, as produced in u-escapes. -/
def hexDigitChar (d : Nat) : Char :=
  if d < 10 then Char.ofNat (48 + d) else Char.ofNat (87 + d)

/-- Decimal digit characters of a natural number, most significant first. -/
def natChars (n : Nat) : List Char :=
  if n < 10 then [digitToChar n]
  else natChars (n / 10) ++ [digitToChar (n % 10)]
termination_by n
decreasing_by exact Nat.div_lt_self (by omega) (by omega)

/-- Decimal rendering of an integer, with a leading minus for negatives. -/
def intChars (k : Int) : List Char :=
  if k < 0 then '-' :: natChars k.natAbs else natChars k.natAbs

/-- The escape sequence JSON.stringify emits for one string character:
quote and backslash get a backslash escape, the named control characters get
their short escapes, the remaining control characters get a u-escape with two
lowercase hexadecimal digits, and everything else is emitted verbatim. -/
def escChar (c : Char) : List Char :=
  if c = '"' then ['\\', '"']
  else if c = '\\' then ['\\', '\\']
  else if c.toNat = 8 then ['\\', 'b']
  else if c.toNat = 12 then ['\\', 'f']
  else if c = '\n' then ['\\', 'n']
  else if c = '\r' then ['\\', 'r']
  else if c = '\t' then ['\\', 't']
  else if c.toNat < 32 then
    ['\\', 'u', '0', '0', hexDigitChar (c.toNat / 16), hexDigitChar (c.toNat % 16)]
  else [c]

/-- Escape every character of a string body. -/
def escChars : List Char → List Char
  | [] => []
  | c :: cs => escChar c ++ escChars cs

/-- Indentation: the given number of spaces. -/
def pad (n : Nat) : List Char := List.replicate n ' '

mutual

/-- Serialize a value at the given enclosing indent (JSON.stringify with
indent two). -/
def serVal : Json → Nat → List Char
  | Json.null, _ => ['n', 'u', 'l', 'l']
  | Json.bool true, _ => ['t', 'r', 'u', 'e']
  | Json.bool false, _ => ['f', 'a', 'l', 's', 'e']
  | Json.num k, _ => intChars k
  | Json.str s, _ => '"' :: (escChars s.data ++ ['"'])
  | Json.arr [], _ => ['[', ']']
  | Json.arr (x :: xs), ind =>
      '[' :: '\n' :: (pad (ind + 2) ++ (serVal x (ind + 2) ++
        (serElemsTail xs (ind + 2) ++ '\n' :: (pad ind ++ [']']))))
  | Json.obj [], _ => ['\x7b', '\x7d']
  | Json.obj (f :: fs), ind =>
      '\x7b' :: '\n' :: (pad (ind + 2) ++ (serMem f (ind + 2) ++
        (serMemsTail fs (ind + 2) ++ '\n' :: (pad ind ++ ['\x7d']))))

/-- Serialize one object member: quoted escaped key, colon, space, value. -/
def serMem : String × Json → Nat → List Char
  | (k, v), ind => '"' :: (escChars k.data ++ ('"' :: ':' :: ' ' :: serVal v ind))

/-- Comma-newline-indent separated trailing array elements. -/
def serElemsTail : List Json → Nat → List Char
  | [], _ => []
  | x :: xs, ind => ',' :: '\n' :: (pad ind ++ (serVal x ind ++ serElemsTail xs ind))

/-- Comma-newline-indent separated trailing object members. -/
def serMemsTail : List (String × Json) → Nat → List Char
  | [], _ => []
  | f :: fs, ind => ',' :: '\n' :: (pad ind ++ (serMem f ind ++ serMemsTail fs ind))

end

/-- The serialized text of a payload, as the success formatter embeds it. -/
def jsonText (j : Json) : String := String.mk (serVal j 0)

/-! ### JSON reading

Models JSON.parse far enough to read back everything the serializer above
produces: a whitespace-tolerant recursive-descent reader over the character
list, total by a fuel argument (one unit per nested reader step), rejecting
trailing garbage at the top level. -/

/-- JSON whitespace. -/
def isWsChar (c : Char) : Bool :=
  c = ' ' || c = '\n' || c = '\r' || c = '\t'

/-- Drop leading whitespace. -/
def skipWs : List Char → List Char
  | [] => []
  | c :: cs => if isWsChar c then skipWs cs else c :: cs

/-- A decimal digit character. -/
def isDigitChar (c : Char) : Bool := 48 ≤ c.toNat && c.toNat ≤ 57

/-- The value of a decimal digit character. -/
def charDigit (c : Char) : Nat := c.toNat - 48

/-- Read a maximal run of decimal digits into the accumulator. -/
def parseDigits : List Char → Nat → Nat × List Char
  | [], acc => (acc, [])
  | c :: cs, acc =>
      if isDigitChar c then parseDigits cs (acc * 10 + charDigit c)
      else (acc, c :: cs)

/-- The value of a hexadecimal digit character, lowercase or uppercase. -/
def hexVal (c : Char) : Option Nat :=
  if 48 ≤ c.toNat && c.toNat ≤ 57 then some (c.toNat - 48)
  else if 97 ≤ c.toNat && c.toNat ≤ 102 then some (c.toNat - 87)
  else if 65 ≤ c.toNat && c.toNat ≤ 70 then some (c.toNat - 55)
  else none

/-- The character denoted by a single-letter escape. -/
def unescChar (e : Char) : Option Char :=
  if e = '"' then some '"'
  else if e = '\\' then some '\\'
  else if e = '/' then some '/'
  else if e = 'b' then some (Char.ofNat 8)
  else if e = 'f' then some (Char.ofNat 12)
  else if e = 'n' then some '\n'
  else if e = 'r' then some '\r'
  else if e = 't' then some '\t'
  else none

/-- Read a string body after the opening quote, up to and past the closing
quote, undoing escapes. -/
def parseStrChars : List Char → Option (List Char × List Char)
  | [] => none
  | c :: rest =>
      if c = '"' then some ([], rest)
      else if c = '\\' then
        match rest with
        | [] => none
        | e :: rest2 =>
            if e = 'u' then
              match rest2 with
              | h1 :: h2 :: h3 :: h4 :: rest3 =>
                  match hexVal h1, hexVal h2, hexVal h3, hexVal h4 with
                  | some a, some b, some c2, some d =>
                      let code := ((a * 16 + b) * 16 + c2) * 16 + d
                      if code < 55296 then
                        match parseStrChars rest3 with
                        | some (cs, r) => some (Char.ofNat code :: cs, r)
                        | none => none
                      else none
                  | _, _, _, _ => none
              | _ => none
            else
              match unescChar e with
              | some u =>
                  match parseStrChars rest2 with
                  | some (cs, r) => some (u :: cs, r)
                  | none => none
              | none => none
      else
        match parseStrChars rest with
        | some (cs, r) => some (c :: cs, r)
        | none => none

/-- Drop an expected literal word, character by character. -/
def stripPre : List Char → List Char → Option (List Char)
  | [], l => some l
  | p :: ps, c :: cs => if c = p then stripPre ps cs else none
  | _ :: _, [] => none

mutual

/-- Read one JSON value after optional whitespace. -/
def parseVal : Nat → List Char → Option (Json × List Char)
  | 0, _ => none
  | fuel + 1, input =>
      match skipWs input with
      | [] => none
      | c :: rest =>
          if c = 'n' then
            match stripPre ['u', 'l', 'l'] rest with
            | some r => some (Json.null, r)
            | none => none
          else if c = 't' then
            match stripPre ['r', 'u', 'e'] rest with
            | some r => some (Json.bool true, r)
            | none => none
          else if c = 'f' then
            match stripPre ['a', 'l', 's', 'e'] rest with
            | some r => some (Json.bool false, r)
            | none => none
          else if c = '"' then
            match parseStrChars rest with
            | some (cs, r) => some (Json.str (String.mk cs), r)
            | none => none
          else if c = '[' then
            match skipWs rest with
            | [] => none
            | d :: r =>
                if d = ']' then some (Json.arr [], r)
                else
                  match parseElems fuel (d :: r) with
                  | some (xs, r2) => some (Json.arr xs, r2)
                  | none => none
          else if c = '\x7b' then
            match skipWs rest with
            | [] => none
            | d :: r =>
                if d = '\x7d' then some (Json.obj [], r)
                else
                  match parseMems fuel (d :: r) with
                  | some (fs, r2) => some (Json.obj fs, r2)
                  | none => none
          else if c = '-' then
            match rest with
            | [] => none
            | d :: _ =>
                if isDigitChar d then
                  match parseDigits rest 0 with
                  | (v, r) => some (Json.num (-(Int.ofNat v)), r)
                else none
          else if isDigitChar c then
            match parseDigits (c :: rest) 0 with
            | (v, r) => some (Json.num (Int.ofNat v), r)
          else none

/-- Read the nonempty element list of an array, past the closing bracket. -/
def parseElems : Nat → List Char → Option (List Json × List Char)
  | 0, _ => none
  | fuel + 1, input =>
      match parseVal fuel input with
      | none => none
      | some (v, r) =>
          match skipWs r with
          | [] => none
          | d :: r2 =>
              if d = ',' then
                match parseElems fuel r2 with
                | some (vs, r3) => some (v :: vs, r3)
                | none => none
              else if d = ']' then some ([v], r2)
              else none

/-- Read the nonempty member list of an object, past the closing brace. -/
def parseMems : Nat → List Char → Option (List (String × Json) × List Char)
  | 0, _ => none
  | fuel + 1, input =>
      match skipWs input with
      | [] => none
      | c :: r0 =>
          if c = '"' then
            match parseStrChars r0 with
            | none => none
            | some (kcs, r1) =>
                match skipWs r1 with
                | [] => none
                | d :: r2 =>
                    if d = ':' then
                      match parseVal fuel r2 with
                      | none => none
                      | some (v, r3) =>
                          match skipWs r3 with
                          | [] => none
                          | e :: r4 =>
                              if e = ',' then
                                match parseMems fuel r4 with
                                | some (ms, r5) =>
                                    some ((String.mk kcs, v) :: ms, r5)
                                | none => none
                              else if e = '\x7d' then
                                some ([(String.mk kcs, v)], r4)
                              else none
                    else none
          else none

end

/-- Parse a whole JSON document: read one value with fuel bounded by the
input length, requiring only whitespace afterwards. -/
def parseJson (s : String) : Option Json :=
  match parseVal (s.data.length + 1) s.data with
  | some (j, rest) => if skipWs rest = [] then some j else none
  | none => none

/-- A remainder that cannot extend a read number: empty or not starting with
a digit. Every position after a serialized value inside a document (comma,
newline, closing bracket, end of input) qualifies. -/
def headNotDigit : List Char → Bool
  | [] => true
  | c :: _ => !isDigitChar c

mutual

/-- Fuel needed by the reader on a serialized value: one unit per reader
step. -/
def wVal : Json → Nat
  | Json.null => 1
  | Json.bool _ => 1
  | Json.num _ => 1
  | Json.str _ => 1
  | Json.arr [] => 1
  | Json.arr (x :: xs) => 1 + wElems (x :: xs)
  | Json.obj [] => 1
  | Json.obj (f :: fs) => 1 + wMems (f :: fs)

/-- Fuel needed by the element reader on a serialized element list. -/
def wElems : List Json → Nat
  | [] => 0
  | x :: xs => 1 + wVal x + wElems xs

/-- Fuel needed by the member reader on a serialized member list. -/
def wMems : List (String × Json) → Nat
  | [] => 0
  | (_, v) :: fs => 1 + wVal v + wMems fs

end

/-! ### Response formatter

Modelled from the spec: the formatter module (src/utils/ResponseFormatter.ts)
is not among the embedded sources; these definitions follow section 4.3. The
protocol error codes are the closed set of section 4.3; a thrown value is a
protocol-level error, an upstream HTTP error, or any other value (strings,
numbers and other non-object values are carried by their display text in the
last constructor). -/

/-- The closed set of protocol error codes (section 4.3 helper). -/
inductive ErrCode where
  | invalidParams
  | methodNotFound
  | internalError
deriving DecidableEq

/-- A value caught by a catch clause: a protocol error, an upstream HTTP
error, or anything else thrown (including non-object values). -/
inductive ThrownValue where
  | mcpError (code : ErrCode) (message : String)
  | httpError (status : Nat) (message : String)
  | other (description : String)

/-- One item of a tool-result content list; the protocol envelope used here
only carries text items. -/
inductive ContentItem where
  | text (s : String)

/-- The tool-result envelope returned to the protocol layer: a content list,
an error flag, and the protocol error code when the result is an error. -/
structure ToolResult where
  content : List ContentItem
  isError : Bool
  errCode : Option ErrCode

/-- Modelled from the spec: success formatting wraps a payload into a single
text-content item containing the JSON-serialized payload, pretty-printed. -/
def formatSuccess (data : Json) : ToolResult :=
  { content := [ContentItem.text (jsonText data)], isError := false, errCode := none }

/-- Modelled from the spec: the protocol error constructor helper. -/
def createMcpError (code : ErrCode) (message : String) : ThrownValue :=
  ThrownValue.mcpError code message

/-- Modelled from the spec: error formatting passes a protocol-level error
through, maps an upstream HTTP error to the internal/upstream code preserving
the upstream message, and maps any other thrown value to the internal code,
always returning a well-formed error envelope. -/
def formatError : ThrownValue → ToolResult
  | ThrownValue.mcpError code message =>
      { content := [ContentItem.text message], isError := true, errCode := some code }
  | ThrownValue.httpError _ message =>
      { content := [ContentItem.text message], isError := true,
        errCode := some ErrCode.internalError }
  | ThrownValue.other description =>
      { content := [ContentItem.text description], isError := true,
        errCode := some ErrCode.internalError }

/-! ### Upstream API client (NSApiService)

Translated from src/services/NSApiService.ts. A network interaction is an
oracle from an issued call (path plus query parameters) to a parsed JSON body
or a thrown value; each client method also returns the trace of calls it
issued, so that the absence of a network call is expressible. -/

/-- One upstream GET request: endpoint path and the query parameters actually
attached (a field passed with an undefined value is omitted by the HTTP
client, so only present fields appear here). -/
structure NetCall where
  path : String
  params : List (String × Json)

/-- The upstream network behavior: what each issued call returns or throws. -/
def Oracle := NetCall → Except ThrownValue Json

/-- A query parameter from an optional argument field: omitted when absent. -/
def qp (name : String) : Option Json → List (String × Json)
  | none => []
  | some v => [(name, v)]

/-- The configuration error message thrown when the API key is missing. -/
def nsKeyMsg : String :=
  "NS_API_KEY is not configured. Please provide your NS API key in the server configuration."

/-- Translated from NSApiService.ensureApiKeyConfigured: throws a
configuration error when the configured key is empty (falsy). -/
def ensureApiKeyConfigured (apiKey : String) : Except ThrownValue Unit :=
  if apiKey = "" then Except.error (ThrownValue.other nsKeyMsg) else Except.ok ()

/-- The shared method body: check the key, then issue exactly one GET through
the oracle; on a missing key no call is issued. -/
def nsGet (apiKey : String) (oracle : Oracle) (call : NetCall) :
    Except ThrownValue Json × List NetCall :=
  match ensureApiKeyConfigured apiKey with
  | Except.error e => (Except.error e, [])
  | Except.ok _ => (oracle call, [call])

/-- Argument record of getDisruptions. -/
structure GetDisruptionsArgs where
  isActive : Option Bool
  type : Option String

/-- Argument record of getTravelAdvice. -/
structure GetTravelAdviceArgs where
  fromStation : String
  toStation : String
  dateTime : Option String
  searchForArrival : Option Bool

/-- Argument record of getDepartures and getArrivals. -/
structure GetDeparturesArgs where
  station : Option String
  uicCode : Option String
  dateTime : Option String
  maxJourneys : Option Int
  lang : Option String

/-- Argument record of getOVFiets. -/
structure GetOVFietsArgs where
  stationCode : String

/-- Argument record of getStationInfo. -/
structure StationInfoArgs where
  query : String
  includeNonPlannableStations : Option Bool
  limit : Option Int

/-- Argument record of getPrices. -/
structure GetPricesArgs where
  fromStation : String
  toStation : String
  travelClass : Option String
  travelType : Option String
  isJointJourney : Option Bool
  adults : Option Int
  children : Option Int
  routeId : Option String
  plannedDepartureTime : Option String
  plannedArrivalTime : Option String

/-- The call getDisruptions issues: path /disruptions/v3 with isActive and
type as provided. -/
def getDisruptionsCall (args : GetDisruptionsArgs) : NetCall :=
  { path := "/disruptions/v3",
    params := qp "isActive" (args.isActive.map Json.bool) ++
      qp "type" (args.type.map Json.str) }

/-- The call getTravelAdvice issues. -/
def getTravelAdviceCall (args : GetTravelAdviceArgs) : NetCall :=
  { path := "/reisinformatie-api/api/v3/trips",
    params := qp "fromStation" (some (Json.str args.fromStation)) ++
      qp "toStation" (some (Json.str args.toStation)) ++
      qp "dateTime" (args.dateTime.map Json.str) ++
      qp "searchForArrival" (args.searchForArrival.map Json.bool) }

/-- The call getDepartures issues. The source passes station, dateTime,
maxJourneys and lang only: the uicCode field of the argument record is not
forwarded. -/
def getDeparturesCall (args : GetDeparturesArgs) : NetCall :=
  { path := "/reisinformatie-api/api/v2/departures",
    params := qp "station" (args.station.map Json.str) ++
      qp "dateTime" (args.dateTime.map Json.str) ++
      qp "maxJourneys" (args.maxJourneys.map Json.num) ++
      qp "lang" (args.lang.map Json.str) }

/-- The call getOVFiets issues: the stationCode field is forwarded under the
upstream parameter name station_code. -/
def getOVFietsCall (args : GetOVFietsArgs) : NetCall :=
  { path := "/places-api/v2/ovfiets",
    params := qp "station_code" (some (Json.str args.stationCode)) }

/-- The call getStationInfo issues: query is forwarded as q, and the two
optional fields are always passed, defaulted to false and 10 when absent. -/
def getStationInfoCall (args : StationInfoArgs) : NetCall :=
  { path := "/nsapp-stations/v3",
    params := qp "q" (some (Json.str args.query)) ++
      qp "includeNonPlannableStations"
        (some (Json.bool (args.includeNonPlannableStations.getD false))) ++
      qp "limit" (some (Json.num (args.limit.getD 10))) }

/-- The call getArrivals issues: unlike getDepartures, uicCode is forwarded. -/
def getArrivalsCall (args : GetDeparturesArgs) : NetCall :=
  { path := "/reisinformatie-api/api/v2/arrivals",
    params := qp "station" (args.station.map Json.str) ++
      qp "uicCode" (args.uicCode.map Json.str) ++
      qp "dateTime" (args.dateTime.map Json.str) ++
      qp "maxJourneys" (args.maxJourneys.map Json.num) ++
      qp "lang" (args.lang.map Json.str) }

/-- The call getPrices issues. -/
def getPricesCall (args : GetPricesArgs) : NetCall :=
  { path := "/reisinformatie-api/api/v3/price",
    params := qp "fromStation" (some (Json.str args.fromStation)) ++
      qp "toStation" (some (Json.str args.toStation)) ++
      qp "travelClass" (args.travelClass.map Json.str) ++
      qp "travelType" (args.travelType.map Json.str) ++
      qp "isJointJourney" (args.isJointJourney.map Json.bool) ++
      qp "adults" (args.adults.map Json.num) ++
      qp "children" (args.children.map Json.num) ++
      qp "routeId" (args.routeId.map Json.str) ++
      qp "plannedDepartureTime" (args.plannedDepartureTime.map Json.str) ++
      qp "plannedArrivalTime" (args.plannedArrivalTime.map Json.str) }

/-- Translated from NSApiService.getDisruptions. -/
def getDisruptions (apiKey : String) (args : GetDisruptionsArgs) (oracle : Oracle) :
    Except ThrownValue Json × List NetCall :=
  nsGet apiKey oracle (getDisruptionsCall args)

/-- Translated from NSApiService.getTravelAdvice. -/
def getTravelAdvice (apiKey : String) (args : GetTravelAdviceArgs) (oracle : Oracle) :
    Except ThrownValue Json × List NetCall :=
  nsGet apiKey oracle (getTravelAdviceCall args)

/-- Translated from NSApiService.getDepartures. -/
def getDepartures (apiKey : String) (args : GetDeparturesArgs) (oracle : Oracle) :
    Except ThrownValue Json × List NetCall :=
  nsGet apiKey oracle (getDeparturesCall args)

/-- Translated from NSApiService.getOVFiets. -/
def getOVFiets (apiKey : String) (args : GetOVFietsArgs) (oracle : Oracle) :
    Except ThrownValue Json × List NetCall :=
  nsGet apiKey oracle (getOVFietsCall args)

/-- Translated from NSApiService.getStationInfo. -/
def getStationInfo (apiKey : String) (args : StationInfoArgs) (oracle : Oracle) :
    Except ThrownValue Json × List NetCall :=
  nsGet apiKey oracle (getStationInfoCall args)

/-- Translated from NSApiService.getArrivals. -/
def getArrivals (apiKey : String) (args : GetDeparturesArgs) (oracle : Oracle) :
    Except ThrownValue Json × List NetCall :=
  nsGet apiKey oracle (getArrivalsCall args)

/-- Translated from NSApiService.getPrices. -/
def getPrices (apiKey : String) (args : GetPricesArgs) (oracle : Oracle) :
    Except ThrownValue Json × List NetCall :=
  nsGet apiKey oracle (getPricesCall args)

/-! ### Call-tool dispatcher

Translated from the CallToolRequestSchema handler of the HTTP entry point:
default the argument bag, switch on the tool name, gate each upstream tool by
its validator (throwing an invalid-parameters protocol error on rejection),
invoke the client method, and wrap the payload; an unknown name throws
method-not-found; the whole body runs under a catch that converts any thrown
value through the error formatter. The wall clock enters as the RFC3339
rendering of the current time. -/

/-- The string value of a bag field, when it is one. -/
def asStr : Option Json → Option String
  | some (Json.str s) => some s
  | _ => none

/-- The boolean value of a bag field, when it is one. -/
def asBool : Option Json → Option Bool
  | some (Json.bool b) => some b
  | _ => none

/-- The numeric value of a bag field, when it is one. -/
def asNum : Option Json → Option Int
  | some (Json.num k) => some k
  | _ => none

/-- The typed view of a validated get_disruptions bag. -/
def toDisruptionsArgs (b : Bag) : GetDisruptionsArgs :=
  { isActive := asBool (bagGet b "isActive"), type := asStr (bagGet b "type") }

/-- The typed view of a validated get_travel_advice bag. -/
def toTravelAdviceArgs (b : Bag) : GetTravelAdviceArgs :=
  { fromStation := (asStr (bagGet b "fromStation")).getD "",
    toStation := (asStr (bagGet b "toStation")).getD "",
    dateTime := asStr (bagGet b "dateTime"),
    searchForArrival := asBool (bagGet b "searchForArrival") }

/-- The typed view of a validated get_departures or get_arrivals bag. -/
def toDeparturesArgs (b : Bag) : GetDeparturesArgs :=
  { station := asStr (bagGet b "station"),
    uicCode := asStr (bagGet b "uicCode"),
    dateTime := asStr (bagGet b "dateTime"),
    maxJourneys := asNum (bagGet b "maxJourneys"),
    lang := asStr (bagGet b "lang") }

/-- The typed view of a validated get_ovfiets bag. -/
def toOVFietsArgs (b : Bag) : GetOVFietsArgs :=
  { stationCode := (asStr (bagGet b "stationCode")).getD "" }

/-- The typed view of a validated get_station_info bag. -/
def toStationInfoArgs (b : Bag) : StationInfoArgs :=
  { query := (asStr (bagGet b "query")).getD "",
    includeNonPlannableStations := asBool (bagGet b "includeNonPlannableStations"),
    limit := asNum (bagGet b "limit") }

/-- The typed view of a validated get_prices bag. -/
def toPricesArgs (b : Bag) : GetPricesArgs :=
  { fromStation := (asStr (bagGet b "fromStation")).getD "",
    toStation := (asStr (bagGet b "toStation")).getD "",
    travelClass := asStr (bagGet b "travelClass"),
    travelType := asStr (bagGet b "travelType"),
    isJointJourney := asBool (bagGet b "isJointJourney"),
    adults := asNum (bagGet b "adults"),
    children := asNum (bagGet b "children"),
    routeId := asStr (bagGet b "routeId"),
    plannedDepartureTime := asStr (bagGet b "plannedDepartureTime"),
    plannedArrivalTime := asStr (bagGet b "plannedArrivalTime") }

/-- One validated upstream branch of the dispatcher: wrap the client result. -/
def wrapCall (r : Except ThrownValue Json × List NetCall) :
    Except ThrownValue ToolResult × List NetCall :=
  match r with
  | (Except.ok data, trace) => (Except.ok (formatSuccess data), trace)
  | (Except.error e, trace) => (Except.error e, trace)

/-- The try-block of the call-tool handler: the switch over tool names. -/
def callToolBody (apiKey : String) (name : String) (rawArgs : Bag) (nowIso : String)
    (oracle : Oracle) : Except ThrownValue ToolResult × List NetCall :=
  if name = "get_disruptions" then
    if isValidDisruptionsArgs rawArgs then
      wrapCall (getDisruptions apiKey (toDisruptionsArgs rawArgs) oracle)
    else
      (Except.error (createMcpError ErrCode.invalidParams
        "Invalid arguments for get_disruptions"), [])
  else if name = "get_travel_advice" then
    if isValidTravelAdviceArgs rawArgs then
      wrapCall (getTravelAdvice apiKey (toTravelAdviceArgs rawArgs) oracle)
    else
      (Except.error (createMcpError ErrCode.invalidParams
        "Invalid arguments for get_travel_advice"), [])
  else if name = "get_departures" then
    if isValidDeparturesArgs rawArgs then
      wrapCall (getDepartures apiKey (toDeparturesArgs rawArgs) oracle)
    else
      (Except.error (createMcpError ErrCode.invalidParams
        "Invalid arguments for get_departures"), [])
  else if name = "get_ovfiets" then
    if isValidOVFietsArgs rawArgs then
      wrapCall (getOVFiets apiKey (toOVFietsArgs rawArgs) oracle)
    else
      (Except.error (createMcpError ErrCode.invalidParams
        "Invalid arguments for get_ovfiets"), [])
  else if name = "get_station_info" then
    if isValidStationInfoArgs rawArgs then
      wrapCall (getStationInfo apiKey (toStationInfoArgs rawArgs) oracle)
    else
      (Except.error (createMcpError ErrCode.invalidParams
        "Invalid arguments for get_station_info"), [])
  else if name = "get_current_time_in_rfc3339" then
    (Except.ok (formatSuccess (Json.obj
      [("datetime", Json.str nowIso), ("timezone", Json.str "Europe/Amsterdam")])), [])
  else if name = "get_arrivals" then
    if isValidArrivalsArgs rawArgs then
      wrapCall (getArrivals apiKey (toDeparturesArgs rawArgs) oracle)
    else
      (Except.error (createMcpError ErrCode.invalidParams
        "Invalid arguments for get_arrivals"), [])
  else if name = "get_prices" then
    if isValidPricesArgs rawArgs then
      wrapCall (getPrices apiKey (toPricesArgs rawArgs) oracle)
    else
      (Except.error (createMcpError ErrCode.invalidParams
        "Invalid arguments for get_prices"), [])
  else
    (Except.error (createMcpError ErrCode.methodNotFound
      ("Unknown tool: " ++ name)), [])

/-- The call-tool handler: default a missing argument bag to the empty bag,
run the switch, and convert any thrown value through the error formatter at
the dispatcher boundary. -/
def handleCallTool (apiKey : String) (name : String) (argsOpt : Option Bag)
    (nowIso : String) (oracle : Oracle) : ToolResult × List NetCall :=
  let rawArgs := argsOpt.getD []
  match callToolBody apiKey name rawArgs nowIso oracle with
  | (Except.ok r, trace) => (r, trace)
  | (Except.error e, trace) => (formatError e, trace)

/-! ### Session-managed HTTP route

Translated from setupExpress: the POST, GET and DELETE handlers on the MCP
route. The session map is the transports map (identifier to transport
handle). The streaming SDK behavior behind a delegated handleRequest is an
oracle: a response status, plus whether handling closed the session (the
close callbacks registered at creation delete the identifier from the map).
For a fresh initialization the generated identifier and transport handle are
inputs; the registered initialization callback inserts them into the map. -/

/-- The session map: identifier to transport handle. -/
def SessionMap := List (String × Nat)

/-- Whether the map holds the identifier. -/
def mapHas : SessionMap → String → Bool
  | [], _ => false
  | (k0, _) :: rest, k => if k0 = k then true else mapHas rest k

/-- Map insertion with replacement, as the JavaScript Map set method. -/
def mapSet : SessionMap → String → Nat → SessionMap
  | [], k, v => [(k, v)]
  | (k0, v0) :: rest, k, v =>
      if k0 = k then (k, v) :: rest else (k0, v0) :: mapSet rest k v

/-- Map deletion, as the JavaScript Map delete method. -/
def mapDelete : SessionMap → String → SessionMap
  | [], _ => []
  | (k0, v0) :: rest, k =>
      if k0 = k then rest else (k0, v0) :: mapDelete rest k

/-- HTTP method of a request on the MCP route. -/
inductive HMethod where
  | post
  | get
  | delete
deriving DecidableEq

/-- An inbound request on the MCP route: method, the value of the
session-identifier header when present, and whether the POST body is an
initialization message. -/
structure McpRequest where
  method : HMethod
  sessionId : Option String
  bodyIsInit : Bool

/-- The outcome of delegating to an existing transport: the response status
it produces, and whether handling closed the session (firing the close
callbacks that delete the identifier). -/
structure DelegateOutcome where
  status : Nat
  closesSession : Bool

/-- Truthiness of the session header, as the JavaScript condition: absent or
empty is falsy. -/
def sidTruthy : Option String → Bool
  | none => false
  | some s => if s = "" then false else true

/-- The header value under truthiness (the empty string stands in when the
header is falsy; the known-session branch is only reached when truthy). -/
def sidVal (sid : Option String) : String := sid.getD ""

/-- One request against the MCP route: the response status and the session
map afterwards. Mirrors the three route handlers: POST reuses a known
session, creates one for a header-less initialization body, and otherwise
rejects with 400; GET and DELETE require a known session and otherwise
reject with 400 before touching session state. -/
def mcpRoute (m : SessionMap) (req : McpRequest) (freshId : String) (handle : Nat)
    (del : DelegateOutcome) : Nat × SessionMap :=
  match req.method with
  | HMethod.post =>
      if sidTruthy req.sessionId && mapHas m (sidVal req.sessionId) then
        (del.status,
          if del.closesSession then mapDelete m (sidVal req.sessionId) else m)
      else if !(sidTruthy req.sessionId) && req.bodyIsInit then
        (200, mapSet m freshId handle)
      else
        (400, m)
  | HMethod.get =>
      if sidTruthy req.sessionId && mapHas m (sidVal req.sessionId) then
        (del.status,
          if del.closesSession then mapDelete m (sidVal req.sessionId) else m)
      else
        (400, m)
  | HMethod.delete =>
      if sidTruthy req.sessionId && mapHas m (sidVal req.sessionId) then
        (del.status,
          if del.closesSession then mapDelete m (sidVal req.sessionId) else m)
      else
        (400, m)

/-- The requests of the claim: a POST whose body is not an initialization
message, a GET, or a DELETE, carrying an absent (or empty, hence falsy)
or unknown session identifier. -/
def badSessionReq (m : SessionMap) (req : McpRequest) : Bool :=
  (!(sidTruthy req.sessionId && mapHas m (sidVal req.sessionId))) &&
  (match req.method with
   | HMethod.post => !req.bodyIsInit
   | HMethod.get => true
   | HMethod.delete => true)

/-- The conjunction of the departures and arrivals per-field checks other
than the station-or-uicCode rule. -/
def depOtherFieldsOk (b : Bag) : Bool :=
  optStrV (bagGet b "dateTime") &&
  optIntRangeV 1 100 (bagGet b "maxJourneys") &&
  optEnumV ["nl", "en"] (bagGet b "lang")

/-- Distinctness of the identifiers held by the session map. -/
def keysNodup (m : SessionMap) : Prop := (m.map Prod.fst).Nodup

/-! ### Theorems -/

/-- A result envelope: a single text content item. -/
theorem formatError_envelope (e : ThrownValue) :
    ∃ s, (formatError e).content = [ContentItem.text s] := by
  cases e with
  | mcpError code message => exact ⟨message, rfl⟩
  | httpError status message => exact ⟨message, rfl⟩
  | other description => exact ⟨description, rfl⟩

/-- C6: the error formatter is total: for every caught value, protocol-level
error, upstream HTTP error, or any other thrown value (non-object values are
carried by the last constructor), it returns a well-formed error envelope:
the error flag is set, an error code from the closed protocol set is present,
and the content is a single text item. Being a Lean function, it cannot
throw. -/
theorem formatError_total (e : ThrownValue) :
    (formatError e).isError = true ∧ (formatError e).errCode.isSome = true ∧
    ∃ s, (formatError e).content = [ContentItem.text s] := by
  refine ⟨?_, ?_, formatError_envelope e⟩ <;> cases e <;> rfl

/-- C9: calling get_current_time_in_rfc3339 with an empty argument bag
returns a success payload of shape (datetime, timezone fixed to
Europe/Amsterdam), where the datetime value is the wall clock's RFC3339
rendering supplied to the handler; the network trace is empty, so no
upstream client call is performed, and the result is not an error. -/
theorem currentTime_empty_args (apiKey nowIso : String) (oracle : Oracle) :
    handleCallTool apiKey "get_current_time_in_rfc3339" (some []) nowIso oracle =
      (formatSuccess (Json.obj
        [("datetime", Json.str nowIso), ("timezone", Json.str "Europe/Amsterdam")]), []) ∧
    (formatSuccess (Json.obj
        [("datetime", Json.str nowIso), ("timezone", Json.str "Europe/Amsterdam")])).isError
      = false := by
  exact ⟨rfl, rfl⟩

/-- C10: the get_current_time_in_rfc3339 branch never inspects its argument
bag: for every argument bag (absent, empty, non-empty, or wrongly typed), the
handler returns exactly the result it returns for the empty bag. -/
theorem currentTime_ignores_args (apiKey nowIso : String) (oracle : Oracle)
    (argsOpt : Option Bag) :
    handleCallTool apiKey "get_current_time_in_rfc3339" argsOpt nowIso oracle =
      handleCallTool apiKey "get_current_time_in_rfc3339" (some []) nowIso oracle := by
  rfl

/-- C3: every upstream-client method with an empty (unconfigured) API key
fails with the configuration error before any network call: the result is
the thrown configuration error and the network trace is empty, for every
argument record and every oracle, on every call. The message begins with the
name of the missing configuration variable. The final conjunct is the
end-to-end scenario: get_disruptions with isActive true and no credential
produces, through the dispatcher, an internal-error envelope carrying the
configuration message, with an empty network trace. -/
theorem missing_key_fails_fast (oracle : Oracle) (a1 : GetDisruptionsArgs)
    (a2 : GetTravelAdviceArgs) (a3 : GetDeparturesArgs) (a4 : GetOVFietsArgs)
    (a5 : StationInfoArgs) (a6 : GetDeparturesArgs) (a7 : GetPricesArgs)
    (nowIso : String) :
    getDisruptions "" a1 oracle = (Except.error (ThrownValue.other nsKeyMsg), []) ∧
    getTravelAdvice "" a2 oracle = (Except.error (ThrownValue.other nsKeyMsg), []) ∧
    getDepartures "" a3 oracle = (Except.error (ThrownValue.other nsKeyMsg), []) ∧
    getOVFiets "" a4 oracle = (Except.error (ThrownValue.other nsKeyMsg), []) ∧
    getStationInfo "" a5 oracle = (Except.error (ThrownValue.other nsKeyMsg), []) ∧
    getArrivals "" a6 oracle = (Except.error (ThrownValue.other nsKeyMsg), []) ∧
    getPrices "" a7 oracle = (Except.error (ThrownValue.other nsKeyMsg), []) ∧
    "NS_API_KEY".data.isPrefixOf nsKeyMsg.data = true ∧
    handleCallTool "" "get_disruptions" (some [("isActive", Json.bool true)]) nowIso oracle
      = (formatError (ThrownValue.other nsKeyMsg), []) ∧
    (formatError (ThrownValue.other nsKeyMsg)).errCode = some ErrCode.internalError ∧
    (formatError (ThrownValue.other nsKeyMsg)).content = [ContentItem.text nsKeyMsg] := by
  refine ⟨rfl, rfl, rfl, rfl, rfl, rfl, rfl, by decide, rfl, rfl, rfl⟩

/-- C4, evaluation at the failing input: getDepartures never forwards the
uicCode argument field as a query parameter, for any argument record; at the
concrete input carrying only a uicCode, the issued departures call has no
query parameters at all, while the structurally identical arrivals call
forwards the field. -/
theorem getDepartures_drops_uicCode :
    (∀ args : GetDeparturesArgs,
      ((getDeparturesCall args).params.map Prod.fst).contains "uicCode" = false) ∧
    (getDeparturesCall
      { station := none, uicCode := some "8400058", dateTime := none,
        maxJourneys := none, lang := none }).params = [] ∧
    (getArrivalsCall
      { station := none, uicCode := some "8400058", dateTime := none,
        maxJourneys := none, lang := none }).params
      = [("uicCode", Json.str "8400058")] := by
  refine ⟨?_, rfl, rfl⟩
  intro args
  obtain ⟨s, u, d, m, l⟩ := args
  cases s <;> cases d <;> cases m <;> cases l <;>
    simp [getDeparturesCall, qp]

/-- A successful branch of the switch always wraps through formatSuccess. -/
theorem wrapCall_ok (x : Except ThrownValue Json × List NetCall) (r : ToolResult)
    (tr : List NetCall) (h : wrapCall x = (Except.ok r, tr)) :
    ∃ d, r = formatSuccess d := by
  obtain ⟨res, trace⟩ := x
  cases res with
  | ok d =>
      simp only [wrapCall, Prod.mk.injEq, Except.ok.injEq] at h
      exact ⟨d, h.1.symm⟩
  | error e => simp [wrapCall] at h

/-- Every successful switch result is a formatted success payload. -/
theorem callToolBody_ok (apiKey name : String) (rawArgs : Bag) (nowIso : String)
    (oracle : Oracle) (r : ToolResult) (tr : List NetCall)
    (h : callToolBody apiKey name rawArgs nowIso oracle = (Except.ok r, tr)) :
    ∃ d, r = formatSuccess d := by
  unfold callToolBody at h
  split_ifs at h <;>
    first
      | exact wrapCall_ok _ _ _ h
      | (simp only [Prod.mk.injEq, Except.ok.injEq] at h
         exact ⟨_, h.1.symm⟩)
      | simp at h

/-- C1: the call-tool dispatcher returns a result envelope for every tool
name and every argument bag, under every network behavior: the result is
always a single-text-item envelope (a success or error envelope), and every
thrown value of the switch body (validation rejection, unknown name, missing
configuration, upstream failure) is converted at the boundary by the error
formatter, never propagated. -/
theorem dispatcher_never_throws (apiKey name : String) (argsOpt : Option Bag)
    (nowIso : String) (oracle : Oracle) :
    (∃ s, (handleCallTool apiKey name argsOpt nowIso oracle).1.content
      = [ContentItem.text s]) ∧
    (∀ e tr, callToolBody apiKey name (argsOpt.getD []) nowIso oracle
        = (Except.error e, tr) →
      handleCallTool apiKey name argsOpt nowIso oracle = (formatError e, tr)) := by
  constructor
  · cases hb : callToolBody apiKey name (argsOpt.getD []) nowIso oracle with
    | mk res trace =>
        cases res with
        | ok r =>
            obtain ⟨d, rfl⟩ := callToolBody_ok _ _ _ _ _ _ _ hb
            exact ⟨jsonText d, by simp [handleCallTool, hb, formatSuccess]⟩
        | error e =>
            obtain ⟨s, hs⟩ := formatError_envelope e
            exact ⟨s, by simp [handleCallTool, hb, hs]⟩
  · intro e tr he
    simp [handleCallTool, he]

/-- C1 witness: at an unknown tool name, the switch throws method-not-found
and the dispatcher returns exactly the formatted error. -/
theorem dispatcher_never_throws_witness :
    handleCallTool "" "no_such_tool" none "t" (fun _ => Except.ok Json.null)
      = (formatError (createMcpError ErrCode.methodNotFound
          "Unknown tool: no_such_tool"), []) :=
  (dispatcher_never_throws "" "no_such_tool" none "t"
    (fun _ => Except.ok Json.null)).2 _ _ rfl

/-- C7: the get_departures and get_arrivals validators implement an
at-least-one-of rule on station and uicCode: a bag with exactly one of the
two present as a string (and the other fields valid) is accepted, a bag with
neither present is rejected regardless of the remaining fields, and a bag
with both present is also accepted (the rule is not exclusive). -/
theorem departures_arrivals_station_rule (b : Bag) :
    ((∃ s, bagGet b "station" = some (Json.str s)) → bagGet b "uicCode" = none →
      depOtherFieldsOk b = true →
      isValidDeparturesArgs b = true ∧ isValidArrivalsArgs b = true) ∧
    ((∃ u, bagGet b "uicCode" = some (Json.str u)) → bagGet b "station" = none →
      depOtherFieldsOk b = true →
      isValidDeparturesArgs b = true ∧ isValidArrivalsArgs b = true) ∧
    (bagGet b "station" = none → bagGet b "uicCode" = none →
      isValidDeparturesArgs b = false ∧ isValidArrivalsArgs b = false) ∧
    ((∃ s, bagGet b "station" = some (Json.str s)) →
      (∃ u, bagGet b "uicCode" = some (Json.str u)) →
      depOtherFieldsOk b = true →
      isValidDeparturesArgs b = true ∧ isValidArrivalsArgs b = true) := by
  refine ⟨?_, ?_, ?_, ?_⟩
  · rintro ⟨s, hs⟩ hu hrest
    simp only [depOtherFieldsOk, Bool.and_eq_true] at hrest
    constructor <;>
      simp [isValidDeparturesArgs, isValidArrivalsArgs, hs, hu, reqStrV,
        hrest.1.1, hrest.1.2, hrest.2]
  · rintro ⟨u, hu⟩ hs hrest
    simp only [depOtherFieldsOk, Bool.and_eq_true] at hrest
    constructor <;>
      simp [isValidDeparturesArgs, isValidArrivalsArgs, hs, hu, reqStrV,
        hrest.1.1, hrest.1.2, hrest.2]
  · intro hs hu
    constructor <;>
      simp [isValidDeparturesArgs, isValidArrivalsArgs, hs, hu, reqStrV]
  · rintro ⟨s, hs⟩ ⟨u, hu⟩ hrest
    simp only [depOtherFieldsOk, Bool.and_eq_true] at hrest
    constructor <;>
      simp [isValidDeparturesArgs, isValidArrivalsArgs, hs, hu, reqStrV,
        hrest.1.1, hrest.1.2, hrest.2]

/-- C7 witness: at concrete bags, station only and uicCode only are
accepted, neither is rejected, and both together are accepted. -/
theorem departures_arrivals_station_rule_witness :
    isValidDeparturesArgs [("station", Json.str "ASD")] = true ∧
    isValidDeparturesArgs [("uicCode", Json.str "8400058")] = true ∧
    isValidDeparturesArgs [("dateTime", Json.str "2025-01-01T00:00:00Z")] = false ∧
    isValidArrivalsArgs
      [("station", Json.str "ASD"), ("uicCode", Json.str "8400058")] = true :=
  ⟨((departures_arrivals_station_rule [("station", Json.str "ASD")]).1
      ⟨"ASD", rfl⟩ rfl (by decide)).1,
   ((departures_arrivals_station_rule [("uicCode", Json.str "8400058")]).2.1
      ⟨"8400058", rfl⟩ rfl (by decide)).1,
   ((departures_arrivals_station_rule
      [("dateTime", Json.str "2025-01-01T00:00:00Z")]).2.2.1 rfl rfl).1,
   ((departures_arrivals_station_rule
      [("station", Json.str "ASD"), ("uicCode", Json.str "8400058")]).2.2.2
      ⟨"ASD", rfl⟩ ⟨"8400058", rfl⟩ (by decide)).2⟩

/-- C8: the get_prices validator rejects any bag whose adults field is 0
and any bag whose children field is -1, regardless of the other fields; and
starting from any accepted bag, the otherwise identical bag with adults set
to 0 is rejected, with adults set to 1 is accepted, and with children set
to -1 is rejected. -/
theorem prices_bounds_rule (b : Bag) :
    (bagGet b "adults" = some (Json.num 0) → isValidPricesArgs b = false) ∧
    (bagGet b "children" = some (Json.num (-1)) → isValidPricesArgs b = false) ∧
    (isValidPricesArgs b = true →
      isValidPricesArgs (bagSet b "adults" (Json.num 0)) = false ∧
      isValidPricesArgs (bagSet b "adults" (Json.num 1)) = true ∧
      isValidPricesArgs (bagSet b "children" (Json.num (-1))) = false) := by
  have ha0 : optIntMinV 1 (some (Json.num 0)) = false := by decide
  have ha1 : optIntMinV 1 (some (Json.num 1)) = true := by decide
  have hc1 : optIntMinV 0 (some (Json.num (-1))) = false := by decide
  refine ⟨?_, ?_, ?_⟩
  · intro hb
    simp [isValidPricesArgs, hb, ha0]
  · intro hb
    simp [isValidPricesArgs, hb, hc1]
  · intro h
    simp only [isValidPricesArgs, Bool.and_eq_true] at h
    obtain ⟨⟨⟨⟨⟨⟨⟨⟨⟨h1, h2⟩, h3⟩, h4⟩, h5⟩, h6⟩, h7⟩, h8⟩, h9⟩, h10⟩ := h
    refine ⟨?_, ?_, ?_⟩ <;>
      simp [isValidPricesArgs, bagGet_bagSet, h1, h2, h3, h4, h5, h6, h7, h8,
        h9, h10, ha0, ha1, hc1]

/-- C8 witness: at concrete bags, adults 0 is rejected outright, and from
the minimal valid bag the adults 1 modification is accepted while the
children -1 modification is rejected. -/
theorem prices_bounds_rule_witness :
    isValidPricesArgs [("fromStation", Json.str "ASD"),
      ("toStation", Json.str "RTD"), ("adults", Json.num 0)] = false ∧
    isValidPricesArgs (bagSet [("fromStation", Json.str "ASD"),
      ("toStation", Json.str "RTD")] "adults" (Json.num 1)) = true ∧
    isValidPricesArgs (bagSet [("fromStation", Json.str "ASD"),
      ("toStation", Json.str "RTD")] "children" (Json.num (-1))) = false :=
  ⟨(prices_bounds_rule [("fromStation", Json.str "ASD"),
      ("toStation", Json.str "RTD"), ("adults", Json.num 0)]).1 rfl,
   ((prices_bounds_rule [("fromStation", Json.str "ASD"),
      ("toStation", Json.str "RTD")]).2.2 (by decide)).2.1,
   ((prices_bounds_rule [("fromStation", Json.str "ASD"),
      ("toStation", Json.str "RTD")]).2.2 (by decide)).2.2⟩

/-- Deletion never adds identifiers to the session map. -/
theorem mapHas_mapDelete (m : SessionMap) (k k2 : String)
    (h : mapHas (mapDelete m k) k2 = true) : mapHas m k2 = true := by
  induction m with
  | nil => simp [mapDelete, mapHas] at h
  | cons p rest ih =>
      obtain ⟨k0, v0⟩ := p
      by_cases h0 : k0 = k
      · simp only [mapDelete, if_pos h0] at h
        by_cases h2 : k0 = k2 <;> simp [mapHas, h2, h, ih]
      · simp only [mapDelete, if_neg h0] at h
        by_cases h2 : k0 = k2
        · simp [mapHas, h2]
        · simp only [mapHas, if_neg h2] at h ⊢
          exact ih h

/-- Insertion adds only the inserted identifier. -/
theorem mapHas_mapSet (m : SessionMap) (k k2 : String) (v : Nat)
    (h : mapHas (mapSet m k v) k2 = true) : k2 = k ∨ mapHas m k2 = true := by
  induction m with
  | nil =>
      simp only [mapSet, mapHas] at h
      by_cases h2 : k = k2
      · exact Or.inl h2.symm
      · simp [if_neg h2] at h
  | cons p rest ih =>
      obtain ⟨k0, v0⟩ := p
      by_cases h0 : k0 = k
      · simp only [mapSet, if_pos h0, mapHas] at h
        by_cases h2 : k = k2
        · exact Or.inl h2.symm
        · simp only [if_neg h2] at h
          subst h0
          exact Or.inr (by simp [mapHas, h2, h])
      · simp only [mapSet, if_neg h0, mapHas] at h
        by_cases h2 : k0 = k2
        · exact Or.inr (by simp [mapHas, h2])
        · simp only [if_neg h2] at h
          rcases ih h with hk | hm
          · exact Or.inl hk
          · exact Or.inr (by simp [mapHas, h2, hm])

/-- A map holds an identifier exactly when its key list contains it. -/
theorem mapHas_iff_mem (m : SessionMap) (k : String) :
    mapHas m k = true ↔ k ∈ m.map Prod.fst := by
  induction m with
  | nil => simp [mapHas]
  | cons p rest ih =>
      obtain ⟨k0, v0⟩ := p
      by_cases h0 : k0 = k
      · subst h0
        simp [mapHas]
      · have h1 : ¬k = k0 := fun hh => h0 hh.symm
        simp [mapHas, h0, h1, ih]

/-- Insertion with replacement preserves distinctness of identifiers. -/
theorem keysNodup_mapSet (m : SessionMap) (k : String) (v : Nat)
    (h : keysNodup m) : keysNodup (mapSet m k v) := by
  induction m with
  | nil => simp [keysNodup, mapSet]
  | cons p rest ih =>
      obtain ⟨k0, v0⟩ := p
      simp only [keysNodup, List.map_cons, List.nodup_cons] at h
      by_cases h0 : k0 = k
      · subst h0
        simpa [keysNodup, mapSet] using h
      · have htail := ih h.2
        simp only [keysNodup, mapSet, if_neg h0, List.map_cons, List.nodup_cons]
        refine ⟨?_, htail⟩
        intro hmem
        have : mapHas (mapSet rest k v) k0 = true := (mapHas_iff_mem _ _).mpr hmem
        rcases mapHas_mapSet rest k k0 v this with hk | hm
        · exact h0 hk
        · exact h.1 ((mapHas_iff_mem _ _).mp hm)

/-- Deletion preserves distinctness of identifiers. -/
theorem keysNodup_mapDelete (m : SessionMap) (k : String)
    (h : keysNodup m) : keysNodup (mapDelete m k) := by
  induction m with
  | nil => exact h
  | cons p rest ih =>
      obtain ⟨k0, v0⟩ := p
      simp only [keysNodup, List.map_cons, List.nodup_cons] at h
      by_cases h0 : k0 = k
      · simpa [keysNodup, mapDelete, if_pos h0] using h.2
      · have htail := ih h.2
        simp only [keysNodup, mapDelete, if_neg h0, List.map_cons, List.nodup_cons]
        refine ⟨?_, htail⟩
        intro hmem
        have : mapHas (mapDelete rest k) k0 = true := (mapHas_iff_mem _ _).mpr hmem
        exact h.1 ((mapHas_iff_mem _ _).mp (mapHas_mapDelete rest k k0 this))

/-- C2: on the MCP route, every request of the claim (a POST whose body is
not an initialization message, any GET, or any DELETE, carrying an absent or
unknown session identifier) is answered 400 with the session map unchanged;
an identifier live after any request was already live before unless the
request was the dedicated initialization path (a POST with no truthy session
header and an initialization body) and the identifier is the freshly
generated one; and the map keeps at most one session object per identifier
(distinctness of identifiers is preserved). -/
theorem mcp_session_rule (m : SessionMap) (req : McpRequest) (freshId : String)
    (handle : Nat) (del : DelegateOutcome) :
    (badSessionReq m req = true → mcpRoute m req freshId handle del = (400, m)) ∧
    (∀ k, mapHas (mcpRoute m req freshId handle del).2 k = true →
      mapHas m k = true ∨
      (req.method = HMethod.post ∧ sidTruthy req.sessionId = false ∧
        req.bodyIsInit = true ∧ k = freshId)) ∧
    (keysNodup m → keysNodup (mcpRoute m req freshId handle del).2) := by
  obtain ⟨method, sid, isInit⟩ := req
  refine ⟨?_, ?_, ?_⟩
  · intro hbad
    simp only [badSessionReq, Bool.and_eq_true] at hbad
    have hX : (sidTruthy sid && mapHas m (sidVal sid)) = false := by
      cases hxx : (sidTruthy sid && mapHas m (sidVal sid)) with
      | false => rfl
      | true =>
          have h1 := hbad.1
          rw [hxx] at h1
          exact absurd h1 (by simp)
    cases method with
    | post =>
        have hinit : isInit = false := by
          simpa using hbad.2
        simp [mcpRoute, hX, hinit]
    | get => simp [mcpRoute, hX]
    | delete => simp [mcpRoute, hX]
  · intro k hk
    cases method with
    | post =>
        by_cases hknown : (sidTruthy sid && mapHas m (sidVal sid)) = true
        · simp only [mcpRoute, if_pos hknown] at hk
          by_cases hclose : del.closesSession = true
          · simp only [hclose, if_true] at hk
            exact Or.inl (mapHas_mapDelete _ _ _ hk)
          · simp only [Bool.not_eq_true] at hclose
            simp only [hclose] at hk
            exact Or.inl hk
        · by_cases hinit : (!(sidTruthy sid) && isInit) = true
          · simp only [mcpRoute, if_neg hknown, if_pos hinit] at hk
            simp only [Bool.and_eq_true] at hinit
            rcases mapHas_mapSet m freshId k handle hk with hkf | hm
            · refine Or.inr ⟨rfl, ?_, hinit.2, hkf⟩
              simpa using hinit.1
            · exact Or.inl hm
          · simp only [mcpRoute, if_neg hknown, if_neg hinit] at hk
            exact Or.inl hk
    | get =>
        by_cases hknown : (sidTruthy sid && mapHas m (sidVal sid)) = true
        · simp only [mcpRoute, if_pos hknown] at hk
          by_cases hclose : del.closesSession = true
          · simp only [hclose, if_true] at hk
            exact Or.inl (mapHas_mapDelete _ _ _ hk)
          · simp only [Bool.not_eq_true] at hclose
            simp only [hclose] at hk
            exact Or.inl hk
        · simp only [mcpRoute, if_neg hknown] at hk
          exact Or.inl hk
    | delete =>
        by_cases hknown : (sidTruthy sid && mapHas m (sidVal sid)) = true
        · simp only [mcpRoute, if_pos hknown] at hk
          by_cases hclose : del.closesSession = true
          · simp only [hclose, if_true] at hk
            exact Or.inl (mapHas_mapDelete _ _ _ hk)
          · simp only [Bool.not_eq_true] at hclose
            simp only [hclose] at hk
            exact Or.inl hk
        · simp only [mcpRoute, if_neg hknown] at hk
          exact Or.inl hk
  · intro hnd
    cases method <;>
      simp only [mcpRoute] <;>
      split <;>
      first
        | (split <;>
            first
              | exact keysNodup_mapDelete _ _ hnd
              | exact hnd
              | exact keysNodup_mapSet _ _ _ hnd)
        | exact keysNodup_mapSet _ _ _ hnd
        | exact hnd

/-- C2 witness: a GET carrying an unknown session identifier against a
one-session map is answered 400 and the map is unchanged. -/
theorem mcp_session_rule_witness :
    mcpRoute [("abc", 7)]
      { method := HMethod.get, sessionId := some "zzz", bodyIsInit := false }
      "fresh" 0 { status := 200, closesSession := false } = (400, [("abc", 7)]) :=
  (mcp_session_rule [("abc", 7)]
    { method := HMethod.get, sessionId := some "zzz", bodyIsInit := false }
    "fresh" 0 { status := 200, closesSession := false }).1 (by decide)

/-! ### Codec round-trip lemmas -/

/-- The digit character of a value below ten is a digit of that value. -/
theorem digitToChar_spec (d : Nat) (h : d < 10) :
    isDigitChar (digitToChar d) = true ∧ charDigit (digitToChar d) = d := by
  interval_cases d <;> exact ⟨by decide, by decide⟩

/-- The decimal rendering of a natural number is a nonempty digit run. -/
theorem natChars_cons (n : Nat) :
    ∃ c t, natChars n = c :: t ∧ isDigitChar c = true := by
  induction n using Nat.strong_induction_on with
  | _ n ih =>
      rw [natChars]
      by_cases h : n < 10
      · exact ⟨digitToChar n, [], by simp [h], (digitToChar_spec n h).1⟩
      · obtain ⟨c, t, hct, hc⟩ := ih (n / 10) (Nat.div_lt_self (by omega) (by omega))
        exact ⟨c, t ++ [digitToChar (n % 10)], by simp [h, hct], hc⟩

/-- Reading past a rendered digit run accumulates exactly its value. -/
theorem parseDigits_natChars (n : Nat) : ∀ (acc : Nat) (rest : List Char),
    parseDigits (natChars n ++ rest) acc
      = parseDigits rest (acc * 10 ^ (natChars n).length + n) := by
  induction n using Nat.strong_induction_on with
  | _ n ih =>
      intro acc rest
      rw [natChars]
      by_cases h : n < 10
      · simp only [if_pos h, List.cons_append, List.nil_append, parseDigits,
          (digitToChar_spec n h).1, if_true, (digitToChar_spec n h).2,
          List.length_cons, List.length_nil]
        norm_num
      · have hlt : n / 10 < n := Nat.div_lt_self (by omega) (by omega)
        have hm : n % 10 < 10 := Nat.mod_lt n (by omega)
        simp only [if_neg h, List.append_assoc, List.cons_append, List.nil_append]
        rw [ih (n / 10) hlt]
        simp only [parseDigits, (digitToChar_spec _ hm).1, if_true,
          (digitToChar_spec _ hm).2, List.length_append, List.length_cons,
          List.length_nil]
        congr 1
        rw [pow_succ, ← mul_assoc]
        generalize acc * (10 : Nat) ^ (natChars (n / 10)).length = Y
        omega

/-- Reading digits stops at once on a remainder that starts with no digit. -/
theorem parseDigits_stop (rest : List Char) (acc : Nat)
    (h : headNotDigit rest = true) : parseDigits rest acc = (acc, rest) := by
  cases rest with
  | nil => rfl
  | cons c t =>
      simp only [headNotDigit, Bool.not_eq_true'] at h
      simp [parseDigits, h]

/-- Whitespace skipping passes over one whitespace character. -/
theorem skipWs_cons_ws (c : Char) (l : List Char) (h : isWsChar c = true) :
    skipWs (c :: l) = skipWs l := by
  simp [skipWs, h]

/-- Whitespace skipping stops at a non-whitespace character. -/
theorem skipWs_not_ws (c : Char) (l : List Char) (h : isWsChar c = false) :
    skipWs (c :: l) = c :: l := by
  simp [skipWs, h]

/-- Whitespace skipping passes over indentation. -/
theorem skipWs_pad (n : Nat) (l : List Char) : skipWs (pad n ++ l) = skipWs l := by
  induction n with
  | zero => rfl
  | succ k ih =>
      have : pad (k + 1) = ' ' :: pad k := by
        simp [pad, List.replicate_succ]
      rw [this, List.cons_append, skipWs_cons_ws _ _ (by decide), ih]

/-- A digit character is none of the characters the reader dispatches on
before its number branch, is not whitespace, and closes nothing. -/
theorem digit_not_special (c : Char) (h : isDigitChar c = true) :
    c ≠ 'n' ∧ c ≠ 't' ∧ c ≠ 'f' ∧ c ≠ '"' ∧ c ≠ '[' ∧ c ≠ '\x7b' ∧ c ≠ '-' ∧
    isWsChar c = false ∧ c ≠ ']' ∧ c ≠ '\x7d' := by
  refine ⟨?_, ?_, ?_, ?_, ?_, ?_, ?_, ?_, ?_, ?_⟩ <;>
    first
      | (intro he; rw [he] at h; exact absurd h (by decide))
      | (cases hc : isWsChar c with
         | false => rfl
         | true =>
             exfalso
             simp only [isWsChar, Bool.or_eq_true, decide_eq_true_eq] at hc
             rcases hc with ((rfl | rfl) | rfl) | rfl <;> exact absurd h (by decide))

/-- Every serialized value begins with a character that is not whitespace,
not a digit continuation hazard for the enclosing reader, and closes
neither an array nor an object. -/
theorem serVal_head (j : Json) (ind : Nat) :
    ∃ c t, serVal j ind = c :: t ∧ isWsChar c = false ∧ c ≠ ']' ∧ c ≠ '\x7d' := by
  have lit : ∀ (c : Char) (t : List Char),
      isWsChar c = false → c ≠ ']' → c ≠ '\x7d' →
      ∃ c2 t2, (c :: t : List Char) = c2 :: t2 ∧
        isWsChar c2 = false ∧ c2 ≠ ']' ∧ c2 ≠ '\x7d' :=
    fun c t h1 h2 h3 => ⟨c, t, rfl, h1, h2, h3⟩
  cases j with
  | num k =>
      by_cases hk : k < 0
      · refine ⟨'-', natChars k.natAbs, ?_, by decide, by decide, by decide⟩
        simp [serVal, intChars, hk]
      · obtain ⟨c, t, hct, hc⟩ := natChars_cons k.natAbs
        obtain ⟨_, _, _, _, _, _, _, hws, hbr, hbc⟩ := digit_not_special c hc
        refine ⟨c, t, ?_, hws, hbr, hbc⟩
        simp [serVal, intChars, hk, hct]
  | null => exact lit 'n' _ (by decide) (by decide) (by decide)
  | bool b =>
      cases b
      case true => exact lit 't' _ (by decide) (by decide) (by decide)
      case false => exact lit 'f' _ (by decide) (by decide) (by decide)
  | str s => exact lit '"' _ (by decide) (by decide) (by decide)
  | arr xs =>
      cases xs
      case nil => exact lit '[' _ (by decide) (by decide) (by decide)
      case cons x t => exact lit '[' _ (by decide) (by decide) (by decide)
  | obj fs =>
      cases fs
      case nil => exact lit '\x7b' _ (by decide) (by decide) (by decide)
      case cons f t => exact lit '\x7b' _ (by decide) (by decide) (by decide)

/-- Whitespace skipping is the identity on serialized output. -/
theorem skipWs_serVal (j : Json) (ind : Nat) (x : List Char) :
    skipWs (serVal j ind ++ x) = serVal j ind ++ x := by
  obtain ⟨c, t, hct, hws, _, _⟩ := serVal_head j ind
  rw [hct, List.cons_append, skipWs_not_ws _ _ hws]

/-- Reading a rendered hexadecimal digit recovers its value. -/
theorem hexVal_hexDigitChar (d : Nat) (h : d < 16) :
    hexVal (hexDigitChar d) = some d := by
  interval_cases d <;> decide

/-- Reading one escaped character undoes the escape and continues. -/
theorem parseStrChars_escChar (c : Char) (l : List Char) :
    parseStrChars (escChar c ++ l)
      = match parseStrChars l with
        | some (cs, r) => some (c :: cs, r)
        | none => none := by
  by_cases h1 : c = '"'
  · subst h1
    rw [show escChar '"' = ['\\', '"'] from by decide, parseStrChars.eq_def]
    simp [unescChar]
  by_cases h2 : c = '\\'
  · subst h2
    rw [show escChar '\\' = ['\\', '\\'] from by decide, parseStrChars.eq_def]
    simp [unescChar]
  by_cases h3 : c.toNat = 8
  · have hc : c = Char.ofNat 8 := by rw [← h3, Char.ofNat_toNat]
    subst hc
    rw [show escChar (Char.ofNat 8) = ['\\', 'b'] from by decide, parseStrChars.eq_def]
    simp [unescChar]
  by_cases h4 : c.toNat = 12
  · have hc : c = Char.ofNat 12 := by rw [← h4, Char.ofNat_toNat]
    subst hc
    rw [show escChar (Char.ofNat 12) = ['\\', 'f'] from by decide, parseStrChars.eq_def]
    simp [unescChar]
  by_cases h5 : c = '\n'
  · subst h5
    rw [show escChar '\n' = ['\\', 'n'] from by decide, parseStrChars.eq_def]
    simp [unescChar]
  by_cases h6 : c = '\r'
  · subst h6
    rw [show escChar '\r' = ['\\', 'r'] from by decide, parseStrChars.eq_def]
    simp [unescChar]
  by_cases h7 : c = '\t'
  · subst h7
    rw [show escChar '\t' = ['\\', 't'] from by decide, parseStrChars.eq_def]
    simp [unescChar]
  by_cases h8 : c.toNat < 32
  · have hesc : escChar c
        = ['\\', 'u', '0', '0', hexDigitChar (c.toNat / 16), hexDigitChar (c.toNat % 16)] := by
      simp [escChar, h1, h2, h3, h4, h5, h6, h7, h8]
    rw [hesc, parseStrChars.eq_def]
    have hdiv : hexVal (hexDigitChar (c.toNat / 16)) = some (c.toNat / 16) :=
      hexVal_hexDigitChar _ (by omega)
    have hmod : hexVal (hexDigitChar (c.toNat % 16)) = some (c.toNat % 16) :=
      hexVal_hexDigitChar _ (by omega)
    simp only [List.cons_append, List.nil_append, hdiv, hmod]
    have hcode : ((0 * 16 + 0) * 16 + c.toNat / 16) * 16 + c.toNat % 16 = c.toNat := by
      omega
    simp only [show hexVal '0' = some 0 from by decide, hcode,
      if_pos (show c.toNat < 55296 from by omega), Char.ofNat_toNat]
    simp
  · have hesc : escChar c = [c] := by
      simp [escChar, h1, h2, h3, h4, h5, h6, h7, h8]
    rw [hesc, parseStrChars.eq_def]
    simp [h1, h2]

/-- Reading a rendered string body recovers it past the closing quote. -/
theorem parseStrChars_escChars (s : List Char) : ∀ (rest : List Char),
    parseStrChars (escChars s ++ '"' :: rest) = some (s, rest) := by
  induction s with
  | nil =>
      intro rest
      rw [show escChars [] = [] from rfl, List.nil_append, parseStrChars.eq_def]
      simp
  | cons c cs ih =>
      intro rest
      rw [escChars, List.append_assoc, parseStrChars_escChar, ih]

/-- The value reader looks only at its input modulo leading whitespace. -/
theorem parseVal_congr (fuel : Nat) (l1 l2 : List Char)
    (h : skipWs l1 = skipWs l2) : parseVal fuel l1 = parseVal fuel l2 := by
  cases fuel with
  | zero => rfl
  | succ f => simp only [parseVal, h]

/-- The element reader looks only at its input modulo leading whitespace. -/
theorem parseElems_congr (fuel : Nat) (l1 l2 : List Char)
    (h : skipWs l1 = skipWs l2) : parseElems fuel l1 = parseElems fuel l2 := by
  cases fuel with
  | zero => rfl
  | succ f => simp only [parseElems, parseVal_congr f l1 l2 h]

/-- The member reader looks only at its input modulo leading whitespace. -/
theorem parseMems_congr (fuel : Nat) (l1 l2 : List Char)
    (h : skipWs l1 = skipWs l2) : parseMems fuel l1 = parseMems fuel l2 := by
  cases fuel with
  | zero => rfl
  | succ f => simp only [parseMems, h]

/-- The reader recognizes the null literal. -/
theorem parseVal_step_null (f : Nat) (rest : List Char) :
    parseVal (f + 1) ('n' :: 'u' :: 'l' :: 'l' :: rest) = some (Json.null, rest) := by
  rw [parseVal.eq_def]
  simp [skipWs, isWsChar, stripPre]

/-- The reader recognizes the true literal. -/
theorem parseVal_step_true (f : Nat) (rest : List Char) :
    parseVal (f + 1) ('t' :: 'r' :: 'u' :: 'e' :: rest)
      = some (Json.bool true, rest) := by
  rw [parseVal.eq_def]
  simp [skipWs, isWsChar, stripPre]

/-- The reader recognizes the false literal. -/
theorem parseVal_step_false (f : Nat) (rest : List Char) :
    parseVal (f + 1) ('f' :: 'a' :: 'l' :: 's' :: 'e' :: rest)
      = some (Json.bool false, rest) := by
  rw [parseVal.eq_def]
  simp [skipWs, isWsChar, stripPre]

/-- The reader recovers a rendered string value. -/
theorem parseVal_step_str (f : Nat) (sl rest : List Char) :
    parseVal (f + 1) ('"' :: (escChars sl ++ '"' :: rest))
      = some (Json.str (String.mk sl), rest) := by
  rw [parseVal.eq_def]
  simp [skipWs, isWsChar, parseStrChars_escChars]

/-- The reader recovers a rendered integer whenever the remainder cannot
extend the digit run. -/
theorem parseVal_step_num (k : Int) (f : Nat) (rest : List Char)
    (hr : headNotDigit rest = true) :
    parseVal (f + 1) (intChars k ++ rest) = some (Json.num k, rest) := by
  have hpd : parseDigits (natChars k.natAbs ++ rest) 0 = (k.natAbs, rest) := by
    rw [parseDigits_natChars, parseDigits_stop _ _ hr]
    norm_num
  obtain ⟨c0, t0, hct, hc0⟩ := natChars_cons k.natAbs
  obtain ⟨hn, ht, hf, hq, hbk, hbc, hms, hws, _, _⟩ := digit_not_special c0 hc0
  have hpd2 : parseDigits (c0 :: (t0 ++ rest)) 0 = (k.natAbs, rest) := by
    rw [← List.cons_append, ← hct]
    exact hpd
  by_cases hk : k < 0
  · have harg : intChars k ++ rest = '-' :: (c0 :: (t0 ++ rest)) := by
      simp [intChars, hk, hct]
    rw [harg, parseVal.eq_def]
    have hsk : skipWs ('-' :: (c0 :: (t0 ++ rest))) = '-' :: (c0 :: (t0 ++ rest)) :=
      skipWs_not_ws _ _ (by decide)
    have hval : -|k| = k := by
      rw [abs_of_neg hk, neg_neg]
    simp [hsk, hc0, hpd2, hval]
  · have harg : intChars k ++ rest = c0 :: (t0 ++ rest) := by
      simp [intChars, hk, hct]
    rw [harg, parseVal.eq_def]
    have hsk : skipWs (c0 :: (t0 ++ rest)) = c0 :: (t0 ++ rest) :=
      skipWs_not_ws _ _ hws
    have hval : |k| = k := abs_of_nonneg (le_of_not_lt hk)
    simp [hsk, hn, ht, hf, hq, hbk, hbc, hms, hc0, hpd2, hval]

/-- The reader recognizes an empty array. -/
theorem parseVal_step_arrNil (f : Nat) (rest : List Char) :
    parseVal (f + 1) ('[' :: ']' :: rest) = some (Json.arr [], rest) := by
  rw [parseVal.eq_def]
  simp [skipWs, isWsChar]

/-- The reader recognizes an empty object. -/
theorem parseVal_step_objNil (f : Nat) (rest : List Char) :
    parseVal (f + 1) ('\x7b' :: '\x7d' :: rest) = some (Json.obj [], rest) := by
  rw [parseVal.eq_def]
  simp [skipWs, isWsChar]

/-- The reader hands a rendered nonempty array body to the element reader. -/
theorem parseVal_step_arrCons (f ind : Nat) (x : Json) (xs : List Json)
    (rest : List Char) :
    parseVal (f + 1) (serVal (Json.arr (x :: xs)) ind ++ rest)
      = match parseElems f (serVal x (ind + 2) ++ (serElemsTail xs (ind + 2) ++
          '\n' :: (pad ind ++ ']' :: rest))) with
        | some (vs, r2) => some (Json.arr vs, r2)
        | none => none := by
  obtain ⟨c0, t0, hct, hws0, hbr0, _⟩ := serVal_head x (ind + 2)
  have harg : serVal (Json.arr (x :: xs)) ind ++ rest
      = '[' :: '\n' :: (pad (ind + 2) ++ (serVal x (ind + 2) ++
          (serElemsTail xs (ind + 2) ++ '\n' :: (pad ind ++ ']' :: rest)))) := by
    simp [serVal]
  have hskip : skipWs ('\n' :: (pad (ind + 2) ++ (serVal x (ind + 2) ++
      (serElemsTail xs (ind + 2) ++ '\n' :: (pad ind ++ ']' :: rest)))))
      = serVal x (ind + 2) ++
          (serElemsTail xs (ind + 2) ++ '\n' :: (pad ind ++ ']' :: rest)) := by
    rw [skipWs_cons_ws _ _ (by decide), skipWs_pad, skipWs_serVal]
  rw [harg, parseVal.eq_def]
  have hsk1 : skipWs ('[' :: '\n' :: (pad (ind + 2) ++ (serVal x (ind + 2) ++
      (serElemsTail xs (ind + 2) ++ '\n' :: (pad ind ++ ']' :: rest)))))
      = '[' :: '\n' :: (pad (ind + 2) ++ (serVal x (ind + 2) ++
          (serElemsTail xs (ind + 2) ++ '\n' :: (pad ind ++ ']' :: rest)))) :=
    skipWs_not_ws _ _ (by decide)
  simp [hsk1]
  simp [hskip]
  simp [hct, hbr0]

/-- A serialized object member begins with the key's opening quote. -/
theorem serMem_head (m : String × Json) (ind : Nat) :
    ∃ t, serMem m ind = '"' :: t := by
  obtain ⟨k, v⟩ := m
  exact ⟨escChars k.data ++ ('"' :: ':' :: ' ' :: serVal v ind), by simp [serMem]⟩

/-- Whitespace skipping is the identity on a serialized member. -/
theorem skipWs_serMem (m : String × Json) (ind : Nat) (x : List Char) :
    skipWs (serMem m ind ++ x) = serMem m ind ++ x := by
  obtain ⟨t, ht⟩ := serMem_head m ind
  rw [ht, List.cons_append, skipWs_not_ws _ _ (by decide)]

/-- The reader hands a rendered nonempty object body to the member reader. -/
theorem parseVal_step_objCons (f ind : Nat) (m : String × Json)
    (fs : List (String × Json)) (rest : List Char) :
    parseVal (f + 1) (serVal (Json.obj (m :: fs)) ind ++ rest)
      = match parseMems f (serMem m (ind + 2) ++ (serMemsTail fs (ind + 2) ++
          '\n' :: (pad ind ++ '\x7d' :: rest))) with
        | some (ms, r2) => some (Json.obj ms, r2)
        | none => none := by
  obtain ⟨t0, hct⟩ := serMem_head m (ind + 2)
  have harg : serVal (Json.obj (m :: fs)) ind ++ rest
      = '\x7b' :: '\n' :: (pad (ind + 2) ++ (serMem m (ind + 2) ++
          (serMemsTail fs (ind + 2) ++ '\n' :: (pad ind ++ '\x7d' :: rest)))) := by
    obtain ⟨k, v⟩ := m
    simp [serVal]
  have hskip : skipWs ('\n' :: (pad (ind + 2) ++ (serMem m (ind + 2) ++
      (serMemsTail fs (ind + 2) ++ '\n' :: (pad ind ++ '\x7d' :: rest)))))
      = serMem m (ind + 2) ++
          (serMemsTail fs (ind + 2) ++ '\n' :: (pad ind ++ '\x7d' :: rest)) := by
    rw [skipWs_cons_ws _ _ (by decide), skipWs_pad, skipWs_serMem]
  rw [harg, parseVal.eq_def]
  have hsk1 : skipWs ('\x7b' :: '\n' :: (pad (ind + 2) ++ (serMem m (ind + 2) ++
      (serMemsTail fs (ind + 2) ++ '\n' :: (pad ind ++ '\x7d' :: rest)))))
      = '\x7b' :: '\n' :: (pad (ind + 2) ++ (serMem m (ind + 2) ++
          (serMemsTail fs (ind + 2) ++ '\n' :: (pad ind ++ '\x7d' :: rest)))) :=
    skipWs_not_ws _ _ (by decide)
  simp [hsk1]
  simp [hskip]
  simp [hct]

mutual

/-- Round trip for one value: reading a serialized value at any indent, with
enough fuel and a remainder that cannot extend it, recovers the value. -/
theorem rt_val : ∀ (j : Json) (ind fuel : Nat) (rest : List Char),
    wVal j ≤ fuel → headNotDigit rest = true →
    parseVal fuel (serVal j ind ++ rest) = some (j, rest)
  | Json.null, ind, fuel, rest, hw, _ => by
      cases fuel with
      | zero => simp only [wVal] at hw; omega
      | succ f =>
          have harg : serVal Json.null ind ++ rest
              = 'n' :: 'u' :: 'l' :: 'l' :: rest := by simp [serVal]
          rw [harg, parseVal_step_null]
  | Json.bool true, ind, fuel, rest, hw, _ => by
      cases fuel with
      | zero => simp only [wVal] at hw; omega
      | succ f =>
          have harg : serVal (Json.bool true) ind ++ rest
              = 't' :: 'r' :: 'u' :: 'e' :: rest := by simp [serVal]
          rw [harg, parseVal_step_true]
  | Json.bool false, ind, fuel, rest, hw, _ => by
      cases fuel with
      | zero => simp only [wVal] at hw; omega
      | succ f =>
          have harg : serVal (Json.bool false) ind ++ rest
              = 'f' :: 'a' :: 'l' :: 's' :: 'e' :: rest := by simp [serVal]
          rw [harg, parseVal_step_false]
  | Json.num k, ind, fuel, rest, hw, hr => by
      cases fuel with
      | zero => simp only [wVal] at hw; omega
      | succ f =>
          have harg : serVal (Json.num k) ind ++ rest = intChars k ++ rest := by
            simp [serVal]
          rw [harg, parseVal_step_num k f rest hr]
  | Json.str s, ind, fuel, rest, hw, _ => by
      cases fuel with
      | zero => simp only [wVal] at hw; omega
      | succ f =>
          obtain ⟨sl⟩ := s
          have harg : serVal (Json.str (String.mk sl)) ind ++ rest
              = '"' :: (escChars sl ++ '"' :: rest) := by
            simp [serVal]
          rw [harg, parseVal_step_str]
  | Json.arr [], ind, fuel, rest, hw, _ => by
      cases fuel with
      | zero => simp only [wVal] at hw; omega
      | succ f =>
          have harg : serVal (Json.arr []) ind ++ rest = '[' :: ']' :: rest := by
            simp [serVal]
          rw [harg, parseVal_step_arrNil]
  | Json.arr (x :: xs), ind, fuel, rest, hw, _ => by
      cases fuel with
      | zero => simp only [wVal] at hw; omega
      | succ f =>
          have hwe : wElems (x :: xs) ≤ f := by
            simp only [wVal] at hw; omega
          have key := rt_elems x xs (ind + 2) ind f rest hwe
          rw [parseVal_step_arrCons, key]
  | Json.obj [], ind, fuel, rest, hw, _ => by
      cases fuel with
      | zero => simp only [wVal] at hw; omega
      | succ f =>
          have harg : serVal (Json.obj []) ind ++ rest = '\x7b' :: '\x7d' :: rest := by
            simp [serVal]
          rw [harg, parseVal_step_objNil]
  | Json.obj ((k, v) :: fs), ind, fuel, rest, hw, _ => by
      cases fuel with
      | zero => simp only [wVal] at hw; omega
      | succ f =>
          have hwm : wMems ((k, v) :: fs) ≤ f := by
            simp only [wVal] at hw; omega
          have key := rt_mems k v fs (ind + 2) ind f rest hwm
          rw [parseVal_step_objCons, key]
termination_by j _ _ _ _ _ => sizeOf j

/-- Round trip for a nonempty element list followed by the closing bracket
on its own outdented line. -/
theorem rt_elems : ∀ (x : Json) (xs : List Json) (ind outd fuel : Nat)
    (rest : List Char), wElems (x :: xs) ≤ fuel →
    parseElems fuel (serVal x ind ++ (serElemsTail xs ind ++
      '\n' :: (pad outd ++ ']' :: rest))) = some (x :: xs, rest)
  | x, [], ind, outd, fuel, rest, hw => by
      cases fuel with
      | zero => simp only [wElems] at hw; omega
      | succ f =>
          have hwx : wVal x ≤ f := by
            simp only [wElems] at hw; omega
          have hv := rt_val x ind f ('\n' :: (pad outd ++ ']' :: rest)) hwx rfl
          have hsk : skipWs ('\n' :: (pad outd ++ ']' :: rest)) = ']' :: rest := by
            rw [skipWs_cons_ws _ _ (by decide), skipWs_pad,
              skipWs_not_ws _ _ (by decide)]
          rw [parseElems.eq_def]
          simp [serElemsTail, hv, hsk]
  | x, y :: ys, ind, outd, fuel, rest, hw => by
      cases fuel with
      | zero => simp only [wElems] at hw; omega
      | succ f =>
          have hwx : wVal x ≤ f := by
            simp only [wElems] at hw; omega
          have hwy : wElems (y :: ys) ≤ f := by
            simp only [wElems] at hw ⊢; omega
          have hv := rt_val x ind f (',' :: '\n' :: (pad ind ++ (serVal y ind ++
            (serElemsTail ys ind ++ '\n' :: (pad outd ++ ']' :: rest))))) hwx rfl
          have hskip2 : skipWs ('\n' :: (pad ind ++ (serVal y ind ++
              (serElemsTail ys ind ++ '\n' :: (pad outd ++ ']' :: rest)))))
              = skipWs (serVal y ind ++ (serElemsTail ys ind ++
                  '\n' :: (pad outd ++ ']' :: rest))) := by
            rw [skipWs_cons_ws _ _ (by decide), skipWs_pad]
          have hpe : parseElems f ('\n' :: (pad ind ++ (serVal y ind ++
              (serElemsTail ys ind ++ '\n' :: (pad outd ++ ']' :: rest)))))
              = some (y :: ys, rest) := by
            rw [parseElems_congr f _ _ hskip2]
            exact rt_elems y ys ind outd f rest hwy
          have hsk3 : skipWs (',' :: '\n' :: (pad ind ++ (serVal y ind ++
              (serElemsTail ys ind ++ '\n' :: (pad outd ++ ']' :: rest)))))
              = ',' :: '\n' :: (pad ind ++ (serVal y ind ++
                  (serElemsTail ys ind ++ '\n' :: (pad outd ++ ']' :: rest)))) :=
            skipWs_not_ws _ _ (by decide)
          rw [parseElems.eq_def]
          simp [serElemsTail, List.append_assoc, hv, hsk3, hpe]
termination_by x xs _ _ _ _ _ => sizeOf x + sizeOf xs

/-- Round trip for a nonempty member list followed by the closing brace on
its own outdented line. -/
theorem rt_mems : ∀ (k : String) (v : Json) (fs : List (String × Json))
    (ind outd fuel : Nat) (rest : List Char), wMems ((k, v) :: fs) ≤ fuel →
    parseMems fuel (serMem (k, v) ind ++ (serMemsTail fs ind ++
      '\n' :: (pad outd ++ '\x7d' :: rest))) = some ((k, v) :: fs, rest)
  | k, v, [], ind, outd, fuel, rest, hw => by
      cases fuel with
      | zero => simp only [wMems] at hw; omega
      | succ f =>
          obtain ⟨kl⟩ := k
          have hwv : wVal v ≤ f := by
            simp only [wMems] at hw; omega
          have hv := rt_val v ind f ('\n' :: (pad outd ++ '\x7d' :: rest)) hwv rfl
          have hsk : skipWs ('\n' :: (pad outd ++ '\x7d' :: rest))
              = '\x7d' :: rest := by
            rw [skipWs_cons_ws _ _ (by decide), skipWs_pad,
              skipWs_not_ws _ _ (by decide)]
          have hpv : parseVal f (' ' :: (serVal v ind ++
              '\n' :: (pad outd ++ '\x7d' :: rest)))
              = some (v, '\n' :: (pad outd ++ '\x7d' :: rest)) := by
            rw [parseVal_congr f (' ' :: (serVal v ind ++
              '\n' :: (pad outd ++ '\x7d' :: rest))) (serVal v ind ++
              '\n' :: (pad outd ++ '\x7d' :: rest)) (skipWs_cons_ws _ _ (by decide))]
            exact hv
          have hq : skipWs ('"' :: (escChars kl ++ '"' :: ':' :: ' ' ::
              (serVal v ind ++ '\n' :: (pad outd ++ '\x7d' :: rest))))
              = '"' :: (escChars kl ++ '"' :: ':' :: ' ' ::
                  (serVal v ind ++ '\n' :: (pad outd ++ '\x7d' :: rest))) :=
            skipWs_not_ws _ _ (by decide)
          have hcolon : skipWs (':' :: ' ' ::
              (serVal v ind ++ '\n' :: (pad outd ++ '\x7d' :: rest)))
              = ':' :: ' ' ::
                  (serVal v ind ++ '\n' :: (pad outd ++ '\x7d' :: rest)) :=
            skipWs_not_ws _ _ (by decide)
          rw [parseMems.eq_def]
          simp [serMem, serMemsTail, parseStrChars_escChars, List.append_assoc,
            hq, hcolon, hpv, hsk]
  | k, v, (k2, v2) :: gs, ind, outd, fuel, rest, hw => by
      cases fuel with
      | zero => simp only [wMems] at hw; omega
      | succ f =>
          obtain ⟨kl⟩ := k
          have hwv : wVal v ≤ f := by
            simp only [wMems] at hw; omega
          have hwg : wMems ((k2, v2) :: gs) ≤ f := by
            simp only [wMems] at hw ⊢; omega
          have hv := rt_val v ind f (',' :: '\n' :: (pad ind ++ (serMem (k2, v2) ind ++
            (serMemsTail gs ind ++ '\n' :: (pad outd ++ '\x7d' :: rest))))) hwv rfl
          have hpv : parseVal f (' ' :: (serVal v ind ++
              ',' :: '\n' :: (pad ind ++ (serMem (k2, v2) ind ++
                (serMemsTail gs ind ++ '\n' :: (pad outd ++ '\x7d' :: rest))))))
              = some (v, ',' :: '\n' :: (pad ind ++ (serMem (k2, v2) ind ++
                  (serMemsTail gs ind ++ '\n' :: (pad outd ++ '\x7d' :: rest))))) := by
            rw [parseVal_congr f (' ' :: (serVal v ind ++
              ',' :: '\n' :: (pad ind ++ (serMem (k2, v2) ind ++
                (serMemsTail gs ind ++ '\n' :: (pad outd ++ '\x7d' :: rest))))))
              (serVal v ind ++ ',' :: '\n' :: (pad ind ++ (serMem (k2, v2) ind ++
                (serMemsTail gs ind ++ '\n' :: (pad outd ++ '\x7d' :: rest)))))
              (skipWs_cons_ws _ _ (by decide))]
            exact hv
          have hskip2 : skipWs ('\n' :: (pad ind ++ (serMem (k2, v2) ind ++
              (serMemsTail gs ind ++ '\n' :: (pad outd ++ '\x7d' :: rest)))))
              = skipWs (serMem (k2, v2) ind ++ (serMemsTail gs ind ++
                  '\n' :: (pad outd ++ '\x7d' :: rest))) := by
            rw [skipWs_cons_ws _ _ (by decide), skipWs_pad]
          have hpm : parseMems f ('\n' :: (pad ind ++ (serMem (k2, v2) ind ++
              (serMemsTail gs ind ++ '\n' :: (pad outd ++ '\x7d' :: rest)))))
              = some ((k2, v2) :: gs, rest) := by
            rw [parseMems_congr f _ _ hskip2]
            exact rt_mems k2 v2 gs ind outd f rest hwg
          have hq : skipWs ('"' :: (escChars kl ++ '"' :: ':' :: ' ' ::
              (serVal v ind ++ ',' :: '\n' :: (pad ind ++ (serMem (k2, v2) ind ++
                (serMemsTail gs ind ++ '\n' :: (pad outd ++ '\x7d' :: rest)))))))
              = '"' :: (escChars kl ++ '"' :: ':' :: ' ' ::
                  (serVal v ind ++ ',' :: '\n' :: (pad ind ++ (serMem (k2, v2) ind ++
                    (serMemsTail gs ind ++ '\n' :: (pad outd ++ '\x7d' :: rest)))))) :=
            skipWs_not_ws _ _ (by decide)
          have hcolon : skipWs (':' :: ' ' ::
              (serVal v ind ++ ',' :: '\n' :: (pad ind ++ (serMem (k2, v2) ind ++
                (serMemsTail gs ind ++ '\n' :: (pad outd ++ '\x7d' :: rest))))))
              = ':' :: ' ' ::
                  (serVal v ind ++ ',' :: '\n' :: (pad ind ++ (serMem (k2, v2) ind ++
                    (serMemsTail gs ind ++ '\n' :: (pad outd ++ '\x7d' :: rest))))) :=
            skipWs_not_ws _ _ (by decide)
          have hcomma : skipWs (',' :: '\n' :: (pad ind ++ (serMem (k2, v2) ind ++
              (serMemsTail gs ind ++ '\n' :: (pad outd ++ '\x7d' :: rest)))))
              = ',' :: '\n' :: (pad ind ++ (serMem (k2, v2) ind ++
                  (serMemsTail gs ind ++ '\n' :: (pad outd ++ '\x7d' :: rest)))) :=
            skipWs_not_ws _ _ (by decide)
          have harg : serMem (String.mk kl, v) ind ++
              (serMemsTail ((k2, v2) :: gs) ind ++
                '\n' :: (pad outd ++ '\x7d' :: rest))
              = '"' :: (escChars kl ++ '"' :: ':' :: ' ' ::
                  (serVal v ind ++ ',' :: '\n' :: (pad ind ++ (serMem (k2, v2) ind ++
                    (serMemsTail gs ind ++ '\n' :: (pad outd ++ '\x7d' :: rest)))))) := by
            simp [serMem, serMemsTail, List.append_assoc]
          rw [harg, parseMems.eq_def]
          simp [parseStrChars_escChars, hq, hcolon, hpv, hcomma, hpm]
termination_by k v fs _ _ _ _ _ => sizeOf v + sizeOf fs

end

mutual

/-- The reader fuel a value needs is at most its serialized length. -/
theorem wVal_le_length : ∀ (j : Json) (ind : Nat),
    wVal j ≤ (serVal j ind).length
  | Json.null, ind => by simp [wVal, serVal]
  | Json.bool true, ind => by simp [wVal, serVal]
  | Json.bool false, ind => by simp [wVal, serVal]
  | Json.num k, ind => by
      obtain ⟨c, t, hct, _⟩ := natChars_cons k.natAbs
      by_cases hk : k < 0 <;>
        simp [wVal, serVal, intChars, hk, hct]
  | Json.str s, ind => by simp [wVal, serVal]
  | Json.arr [], ind => by simp [wVal, serVal]
  | Json.arr (x :: xs), ind => by
      have h1 := wVal_le_length x (ind + 2)
      have h2 := wElems_le_length xs (ind + 2)
      simp only [wVal, wElems, serVal, List.length_cons, List.length_append]
      omega
  | Json.obj [], ind => by simp [wVal, serVal]
  | Json.obj ((k, v) :: fs), ind => by
      have h1 := wVal_le_length v (ind + 2)
      have h2 := wMems_le_length fs (ind + 2)
      simp only [wVal, wMems, serVal, serMem, List.length_cons, List.length_append]
      omega
termination_by j _ => sizeOf j

/-- The reader fuel a tail of elements needs is at most its serialized
length. -/
theorem wElems_le_length : ∀ (xs : List Json) (ind : Nat),
    wElems xs ≤ (serElemsTail xs ind).length
  | [], ind => by simp [wElems, serElemsTail]
  | x :: xs, ind => by
      have h1 := wVal_le_length x ind
      have h2 := wElems_le_length xs ind
      simp only [wElems, serElemsTail, List.length_cons, List.length_append]
      omega
termination_by xs _ => sizeOf xs

/-- The reader fuel a tail of members needs is at most its serialized
length. -/
theorem wMems_le_length : ∀ (fs : List (String × Json)) (ind : Nat),
    wMems fs ≤ (serMemsTail fs ind).length
  | [], ind => by simp [wMems, serMemsTail]
  | (k, v) :: fs, ind => by
      have h1 := wVal_le_length v ind
      have h2 := wMems_le_length fs ind
      simp only [wMems, serMemsTail, serMem, List.length_cons, List.length_append]
      omega
termination_by fs _ => sizeOf fs

end

/-- Reading back the serialized text of any payload recovers the payload. -/
theorem parseJson_jsonText (j : Json) : parseJson (jsonText j) = some j := by
  have hw : wVal j ≤ (serVal j 0).length + 1 :=
    le_trans (wVal_le_length j 0) (by omega)
  have h := rt_val j 0 ((serVal j 0).length + 1) [] hw rfl
  rw [List.append_nil] at h
  simp [parseJson, jsonText, h, skipWs]

/-- C5: formatting any JSON-representable payload with the success formatter
yields an envelope whose content is a single text item holding the
pretty-printed serialization, and reading that text back as JSON reproduces
the payload exactly. -/
theorem success_envelope_roundtrip (j : Json) :
    (formatSuccess j).content = [ContentItem.text (jsonText j)] ∧
    parseJson (jsonText j) = some j :=
  ⟨rfl, parseJson_jsonText j⟩

end NS
